import Mathlib

/-!
Verification of the report-safety evaluator (src/src/lib.rs).

A report is an ordered sequence of unsigned integers (Rust `Vec<u32>`,
modelled as `List Nat`; every evaluator operation uses only comparison
and `abs_diff`, which never overflow, so the `Nat` model is exact on the
`u32` range).  The evaluator decides whether a report is "safe" under a
strict monotonic-step rule, optionally after removing up to `tolerance`
elements, and counts the safe reports of a collection.
-/

namespace Day02

/-- Rust `u32::abs_diff`. -/
def absDiff (a b : Nat) : Nat :=
  if a ≤ b then b - a else a - b

/-- `Report::is_safe_at_index` from src/src/lib.rs: true at the last index,
otherwise the step to the next element has absolute difference in (0, 4).
Out-of-range reads (`values[index]`) are modelled by `getD _ 0`; the checked
variant `isSafeAtIndexChecked` below accounts for panics. -/
def isSafeAtIndex (values : List Nat) (index : Nat) : Bool :=
  if index = values.length - 1 then
    true
  else
    let value := values.getD index 0
    let next_value := values.getD (index + 1) 0
    decide (0 < absDiff value next_value) && decide (absDiff value next_value < 4)

/-- `Report::is_ascending`: at least two elements and the first is below the
second. -/
def isAscending (values : List Nat) : Bool :=
  decide (2 ≤ values.length) && decide (values.getD 0 0 < values.getD 1 0)

/-- `Report::is_wright_order`: true at the last index, otherwise the next
element must be strictly above (when the whole report ascends by its first
pair) or strictly below (otherwise) the current one. -/
def isWrightOrder (values : List Nat) (index : Nat) : Bool :=
  if index = values.length - 1 then
    true
  else
    let value := values.getD index 0
    let next_value := values.getD (index + 1) 0
    if isAscending values then
      decide (value < next_value)
    else
      decide (next_value < value)

/-- `generate_subsequences` from src/src/lib.rs.  The Rust function loops
`for i in start..values.len()`, pushing `values[i]`, recursing with start
`i + 1`, and popping; operating on the slice `values[start..]` this is
exactly: either the head is taken into `current` or it is skipped, and a
combination is emitted once `current` reaches the required length. -/
def generateSubsequences (values : List Nat) (len_req : Nat) (current : List Nat) :
    List (List Nat) :=
  if current.length = len_req then
    [current]
  else
    match values with
    | [] => []
    | v :: rest =>
        generateSubsequences rest len_req (current ++ [v]) ++
          generateSubsequences rest len_req current

/-- `Report::get_subsequences`: all order-preserving selections of exactly
`len_req` elements. -/
def getSubsequences (values : List Nat) (len_req : Nat) : List (List Nat) :=
  generateSubsequences values len_req []

/-- The tolerance-0 path of `Report::is_safe`: empty values are unsafe,
otherwise every index must pass both the step check and the order check.
The recursive call `Report { values: subsequence.clone() }.is_safe(0)` in the
source is exactly this function (`isSafe_zero` below proves the agreement),
named separately so that `isSafe` needs no recursion. -/
def isSafeZero (values : List Nat) : Bool :=
  if values = [] then
    false
  else
    (List.range values.length).all (fun i => isSafeAtIndex values i && isWrightOrder values i)

/-- `Report::is_safe` from src/src/lib.rs.  Empty values are unsafe
regardless of tolerance; at tolerance 0 every index must pass both the step
check and the order check; at positive tolerance some subsequence of length
`len - tolerance` (saturating) must be safe at tolerance 0. -/
def isSafe (values : List Nat) (tolerance : Nat) : Bool :=
  if values = [] then
    false
  else if tolerance = 0 then
    (List.range values.length).all (fun i => isSafeAtIndex values i && isWrightOrder values i)
  else
    let n := values.length
    let required_len := n - tolerance
    (getSubsequences values required_len).any (fun s => isSafeZero s)

/-- `safe_reports` from src/src/lib.rs: 0 for an empty collection, otherwise
the loop counts the reports that are safe at the given tolerance. -/
def safeReports (reports : List (List Nat)) (tolerance : Nat) : Nat :=
  if reports = [] then
    0
  else
    reports.foldl (fun safe_count report =>
      if isSafe report tolerance then safe_count + 1 else safe_count) 0

/-! ### The report parser (`Puzzle::add_report`) -/

/-- Rust `char::is_whitespace`: the Unicode `White_Space` property, i.e.
U+0009..U+000D, U+0020, U+0085, U+00A0, U+1680, U+2000..U+200A, U+2028,
U+2029, U+202F, U+205F and U+3000. -/
def isRustWhitespace (c : Char) : Bool :=
  let n := c.toNat
  decide (0x9 ≤ n ∧ n ≤ 0xD) || decide (n = 0x20) || decide (n = 0x85) ||
    decide (n = 0xA0) || decide (n = 0x1680) || decide (0x2000 ≤ n ∧ n ≤ 0x200A) ||
    decide (n = 0x2028) || decide (n = 0x2029) || decide (n = 0x202F) ||
    decide (n = 0x205F) || decide (n = 0x3000)

/-- Rust `str::split_whitespace` over the characters of the line: maximal
runs of characters without the Unicode `White_Space` property, in order,
with no empty tokens.  `cur` accumulates the current token in reverse, as a
Rust iterator would build it. -/
def splitWhitespaceAux : List Char → List Char → List (List Char)
  | [], cur => if cur = [] then [] else [cur.reverse]
  | c :: rest, cur =>
      if isRustWhitespace c then
        if cur = [] then
          splitWhitespaceAux rest []
        else
          cur.reverse :: splitWhitespaceAux rest []
      else
        splitWhitespaceAux rest (c :: cur)

/-- The whitespace-separated tokens of a line. -/
def wsTokens (line : String) : List (List Char) :=
  splitWhitespaceAux line.toList []

/-- Rust `str::parse::<u32>()` on one token: an optional leading `+`, then at
least one ASCII digit, value below `2^32`; anything else fails with `none`. -/
def parseU32 (s : List Char) : Option Nat :=
  let t := match s with
    | '+' :: rest => rest
    | _ => s
  if t = [] then
    none
  else if t.all (fun c => c.isDigit) then
    let v := t.foldl (fun acc c => acc * 10 + (c.toNat - 48)) 0
    if v < 4294967296 then some v else none
  else
    none

/-- `Puzzle::add_report` from src/src/lib.rs: split the line on whitespace,
keep the tokens that parse as `u32`, and push the resulting report.  The
`Puzzle` struct is its list of reports. -/
def addReport (reports : List (List Nat)) (line : String) : List (List Nat) :=
  reports ++ [(wsTokens line).filterMap parseU32]

/-- Modelled from the spec (§4.1), for comparison with `addReport`: walk the
tokens in order, keep each one that parses successfully, silently drop the
rest. -/
def keepParsedTokens : List (List Char) → List Nat
  | [] => []
  | tok :: rest =>
      match parseU32 tok with
      | some v => v :: keepParsedTokens rest
      | none => keepParsedTokens rest

/-- The six-line reference input. -/
def exampleLines : List String :=
  ["7 6 4 2 1", "1 2 7 8 9", "9 7 6 2 1", "1 3 2 4 5", "8 6 4 4 1", "1 3 6 7 9"]

/-- The reference puzzle, built end to end through the parser. -/
def examplePuzzle : List (List Nat) :=
  exampleLines.foldl addReport []

/-! ### Panic-aware (checked) variants of the evaluator

Each Rust indexing operation `values[i]` panics when out of bounds, and
`values.len() - 1` underflows (a panic in debug builds) when the values are
empty.  The checked variants return `none` exactly when such an operation
would be reached, and `some` of the unchecked result otherwise.  The
combinators `optAll` / `optAny` demand that *every* element evaluate without
a panic — stronger than Rust's short-circuiting `all` / `any` — so proving
they return `some` proves panic-freedom a fortiori. -/

def optAll {α : Type} (f : α → Option Bool) : List α → Option Bool
  | [] => some true
  | x :: rest =>
      match f x with
      | none => none
      | some b =>
          match optAll f rest with
          | none => none
          | some c => some (b && c)

def optAny {α : Type} (f : α → Option Bool) : List α → Option Bool
  | [] => some false
  | x :: rest =>
      match f x with
      | none => none
      | some b =>
          match optAny f rest with
          | none => none
          | some c => some (b || c)

/-- `Report::is_safe_at_index` with every partial operation checked. -/
def isSafeAtIndexChecked (values : List Nat) (index : Nat) : Option Bool :=
  if values.length = 0 then
    none
  else if index = values.length - 1 then
    some true
  else
    match values[index]?, values[index + 1]? with
    | some value, some next_value =>
        some (decide (0 < absDiff value next_value) && decide (absDiff value next_value < 4))
    | _, _ => none

/-- `Report::is_ascending` with every partial operation checked; the Rust
`&&` short-circuits, so no element is read when the length is below 2. -/
def isAscendingChecked (values : List Nat) : Option Bool :=
  if 2 ≤ values.length then
    match values[0]?, values[1]? with
    | some v0, some v1 => some (decide (v0 < v1))
    | _, _ => none
  else
    some false

/-- `Report::is_wright_order` with every partial operation checked. -/
def isWrightOrderChecked (values : List Nat) (index : Nat) : Option Bool :=
  if values.length = 0 then
    none
  else if index = values.length - 1 then
    some true
  else
    match values[index]?, values[index + 1]? with
    | some value, some next_value =>
        match isAscendingChecked values with
        | some true => some (decide (value < next_value))
        | some false => some (decide (next_value < value))
        | none => none
    | _, _ => none

/-- The tolerance-0 path of `Report::is_safe` with every partial operation
checked. -/
def isSafeZeroChecked (values : List Nat) : Option Bool :=
  if values = [] then
    some false
  else
    optAll
      (fun i =>
        match isSafeAtIndexChecked values i, isWrightOrderChecked values i with
        | some a, some b => some (a && b)
        | _, _ => none)
      (List.range values.length)

/-- `Report::is_safe` with every partial operation checked. -/
def isSafeChecked (values : List Nat) (tolerance : Nat) : Option Bool :=
  if values = [] then
    some false
  else if tolerance = 0 then
    optAll
      (fun i =>
        match isSafeAtIndexChecked values i, isWrightOrderChecked values i with
        | some a, some b => some (a && b)
        | _, _ => none)
      (List.range values.length)
  else
    optAny (fun s => isSafeZeroChecked s)
      (getSubsequences values (values.length - tolerance))

/-! ### Basic lemmas -/

theorem isSafe_zero (values : List Nat) : isSafe values 0 = isSafeZero values := by
  simp [isSafe, isSafeZero]

theorem getD_eq_get (l : List Nat) (i : Nat) (h : i < l.length) :
    l.getD i 0 = l.get ⟨i, h⟩ := by
  rw [List.getD_eq_getElem?_getD, List.getElem?_eq_getElem h]
  simp [List.get_eq_getElem]

/-! ### Characterization of the subsequence enumeration -/

theorem mem_generateSubsequences (values : List Nat) :
    ∀ (len_req : Nat) (cur s : List Nat),
      s ∈ generateSubsequences values len_req cur ↔
        ∃ t, t.Sublist values ∧ s = cur ++ t ∧ s.length = len_req := by
  induction values with
  | nil =>
    intro len_req cur s
    by_cases h : cur.length = len_req
    · simp only [generateSubsequences, h, if_true, List.mem_singleton, List.sublist_nil]
      constructor
      · rintro rfl
        exact ⟨[], rfl, by simp, by simpa using h⟩
      · rintro ⟨t, rfl, rfl, _⟩
        simp
    · simp only [generateSubsequences, h, if_false, List.not_mem_nil, false_iff]
      rintro ⟨t, ht, rfl, hlen⟩
      rw [List.sublist_nil] at ht
      subst ht
      simp only [List.append_nil] at hlen
      exact h hlen
  | cons v rest ih =>
    intro len_req cur s
    by_cases h : cur.length = len_req
    · simp only [generateSubsequences, h, if_true, List.mem_singleton]
      constructor
      · rintro rfl
        exact ⟨[], List.nil_sublist _, by simp, by simpa using h⟩
      · rintro ⟨t, ht, rfl, hlen⟩
        rw [List.length_append] at hlen
        have ht0 : t.length = 0 := by omega
        rw [List.length_eq_zero] at ht0
        subst ht0
        simp
    · simp only [generateSubsequences, h, if_false, List.mem_append]
      rw [ih, ih]
      constructor
      · rintro (⟨t, ht, rfl, hlen⟩ | ⟨t, ht, rfl, hlen⟩)
        · refine ⟨v :: t, List.Sublist.cons₂ v ht, by simp, ?_⟩
          simpa using hlen
        · exact ⟨t, List.Sublist.cons v ht, rfl, hlen⟩
      · rintro ⟨t, ht, rfl, hlen⟩
        rcases List.sublist_cons_iff.mp ht with ht' | ⟨r, rfl, hr⟩
        · exact Or.inr ⟨t, ht', rfl, hlen⟩
        · refine Or.inl ⟨r, hr, by simp, ?_⟩
          simpa using hlen

theorem mem_getSubsequences (values : List Nat) (len_req : Nat) (s : List Nat) :
    s ∈ getSubsequences values len_req ↔ s.Sublist values ∧ s.length = len_req := by
  rw [getSubsequences, mem_generateSubsequences]
  constructor
  · rintro ⟨t, ht, rfl, hlen⟩
    simpa using ⟨ht, hlen⟩
  · rintro ⟨hs, hlen⟩
    exact ⟨s, hs, by simp, hlen⟩

theorem getSubsequences_zero (values : List Nat) : getSubsequences values 0 = [[]] := by
  cases values <;> rfl

/-! ### Branch lemmas for `isSafe` -/

theorem isSafe_pos (values : List Nat) (t : Nat) (hne : values ≠ []) (ht : t ≠ 0) :
    isSafe values t =
      (getSubsequences values (values.length - t)).any (fun s => isSafeZero s) := by
  simp [isSafe, hne, ht]

theorem isSafe_pos_iff (values : List Nat) (t : Nat) (hne : values ≠ []) (ht : t ≠ 0) :
    isSafe values t = true ↔
      ∃ s, s.Sublist values ∧ s.length = values.length - t ∧ isSafeZero s = true := by
  rw [isSafe_pos values t hne ht, List.any_eq_true]
  constructor
  · rintro ⟨s, hs, hsafe⟩
    rcases (mem_getSubsequences values _ s).mp hs with ⟨h1, h2⟩
    exact ⟨s, h1, h2, hsafe⟩
  · rintro ⟨s, h1, h2, h3⟩
    exact ⟨s, (mem_getSubsequences values _ s).mpr ⟨h1, h2⟩, h3⟩

/-! ### Characterization of the strict (tolerance-0) rule -/

theorem isSafeZero_iff (values : List Nat) (hne : values ≠ []) :
    isSafeZero values = true ↔
      ∀ i, i + 1 < values.length →
        (0 < absDiff (values.getD i 0) (values.getD (i + 1) 0) ∧
         absDiff (values.getD i 0) (values.getD (i + 1) 0) < 4 ∧
         (if isAscending values = true then values.getD i 0 < values.getD (i + 1) 0
          else values.getD (i + 1) 0 < values.getD i 0)) := by
  rw [isSafeZero, if_neg hne, List.all_eq_true]
  constructor
  · intro h i hi
    have hmem : i ∈ List.range values.length := List.mem_range.mpr (by omega)
    have hh := h i hmem
    rw [Bool.and_eq_true] at hh
    obtain ⟨h1, h2⟩ := hh
    have hne1 : ¬ (i = values.length - 1) := by omega
    rw [isSafeAtIndex, if_neg hne1, Bool.and_eq_true, decide_eq_true_iff,
      decide_eq_true_iff] at h1
    rw [isWrightOrder, if_neg hne1] at h2
    refine ⟨h1.1, h1.2, ?_⟩
    by_cases hasc : isAscending values = true <;> simp [hasc] at h2 ⊢ <;> exact h2
  · intro h i hmem
    rw [List.mem_range] at hmem
    rw [Bool.and_eq_true]
    by_cases hlast : i = values.length - 1
    · exact ⟨by rw [isSafeAtIndex, if_pos hlast], by rw [isWrightOrder, if_pos hlast]⟩
    · have hlen : values.length ≠ 0 := by simpa [List.length_eq_zero] using hne
      have hi : i + 1 < values.length := by omega
      obtain ⟨h1, h2, h3⟩ := h i hi
      refine ⟨?_, ?_⟩
      · rw [isSafeAtIndex, if_neg hlast]
        simp only [Bool.and_eq_true, decide_eq_true_iff]
        exact ⟨h1, h2⟩
      · rw [isWrightOrder, if_neg hlast]
        by_cases hasc : isAscending values = true <;> simp [hasc] at h3 ⊢ <;> exact h3

theorem isSafeZero_singleton (values : List Nat) (h : values.length = 1) :
    isSafeZero values = true := by
  have hne : values ≠ [] := by
    intro hh
    subst hh
    simp at h
  rw [isSafeZero_iff values hne]
  intro i hi
  omega

/-! ### Prefixes of strictly safe sequences are strictly safe -/

theorem getD_take (l : List Nat) (k i : Nat) (h : i < k) :
    (l.take k).getD i 0 = l.getD i 0 := by
  rw [List.getD_eq_getElem?_getD, List.getD_eq_getElem?_getD, List.getElem?_take_of_lt h]

theorem isAscending_take (l : List Nat) (k : Nat) (h2 : 2 ≤ (l.take k).length) :
    isAscending (l.take k) = isAscending l := by
  have hlen : (l.take k).length = min k l.length := by simp
  have hk : 2 ≤ k := by omega
  have hl : 2 ≤ l.length := by omega
  rw [isAscending, isAscending, getD_take l k 0 (by omega), getD_take l k 1 (by omega),
    decide_eq_true h2, decide_eq_true hl]

theorem isSafeZero_take (values : List Nat) (k : Nat) (hk : 1 ≤ k)
    (h : isSafeZero values = true) : isSafeZero (values.take k) = true := by
  have hne : values ≠ [] := by
    intro hh
    subst hh
    simp [isSafeZero] at h
  have hpos : 0 < values.length := List.length_pos.mpr hne
  have hne' : values.take k ≠ [] := by
    rw [← List.length_pos]
    simp only [List.length_take]
    omega
  rw [isSafeZero_iff _ hne']
  rw [isSafeZero_iff _ hne] at h
  intro i hi
  have hlen : (values.take k).length = min k values.length := by simp
  have hik : i + 1 < k := by omega
  have hiv : i + 1 < values.length := by omega
  have h2 : 2 ≤ (values.take k).length := by omega
  rw [getD_take values k i (by omega), getD_take values k (i + 1) hik,
    isAscending_take values k h2]
  exact h i hiv

/-! ### The claims -/

/-- C1.  For every report of length at least 2, `is_safe` at tolerance 0
returns true if and only if the sequence is strictly monotonic in one
direction (strictly increasing throughout, or else strictly decreasing
throughout, the direction being fixed by the first two elements) and every
consecutive pair differs by an absolute amount in the range [1, 3]. -/
theorem claim_c1_strict_rule (values : List Nat) (h2 : 2 ≤ values.length) :
    isSafe values 0 = true ↔
      ((List.Chain' (· < ·) values ∨ List.Chain' (· > ·) values) ∧
        ∀ i, i + 1 < values.length →
          1 ≤ absDiff (values.getD i 0) (values.getD (i + 1) 0) ∧
          absDiff (values.getD i 0) (values.getD (i + 1) 0) ≤ 3) := by
  have hne : values ≠ [] := by
    intro hh
    subst hh
    simp at h2
  rw [isSafe_zero, isSafeZero_iff values hne]
  constructor
  · intro h
    refine ⟨?_, ?_⟩
    · by_cases hasc : isAscending values = true
      · left
        rw [List.chain'_iff_get]
        intro i hi
        have hi1 : i + 1 < values.length := by omega
        have hcond := (h i hi1).2.2
        rw [if_pos hasc] at hcond
        rw [← getD_eq_get values i (by omega), ← getD_eq_get values (i + 1) hi1]
        exact hcond
      · right
        rw [List.chain'_iff_get]
        intro i hi
        have hi1 : i + 1 < values.length := by omega
        have hcond := (h i hi1).2.2
        rw [if_neg hasc] at hcond
        rw [← getD_eq_get values i (by omega), ← getD_eq_get values (i + 1) hi1]
        exact hcond
    · intro i hi
      obtain ⟨ha, hb, _⟩ := h i hi
      exact ⟨ha, by omega⟩
  · rintro ⟨hmono, hstep⟩
    intro i hi
    refine ⟨(hstep i hi).1, by have := (hstep i hi).2; omega, ?_⟩
    rcases hmono with hc | hc
    · have h01 : values.getD 0 0 < values.getD 1 0 := by
        rw [List.chain'_iff_get] at hc
        have h0 := hc 0 (by omega)
        rwa [← getD_eq_get values 0 (by omega), ← getD_eq_get values 1 (by omega)] at h0
      have hasc : isAscending values = true := by
        rw [isAscending, decide_eq_true h2, decide_eq_true h01]
        rfl
      rw [if_pos hasc]
      rw [List.chain'_iff_get] at hc
      have hci := hc i (by omega)
      rwa [← getD_eq_get values i (by omega), ← getD_eq_get values (i + 1) (by omega)] at hci
    · have h01 : values.getD 1 0 < values.getD 0 0 := by
        rw [List.chain'_iff_get] at hc
        have h0 := hc 0 (by omega)
        rwa [← getD_eq_get values 0 (by omega), ← getD_eq_get values 1 (by omega)] at h0
      have hasc : ¬ isAscending values = true := by
        rw [isAscending]
        simp only [Bool.and_eq_true, decide_eq_true_iff, not_and]
        intro _
        omega
      rw [if_neg hasc]
      rw [List.chain'_iff_get] at hc
      have hci := hc i (by omega)
      rwa [← getD_eq_get values i (by omega), ← getD_eq_get values (i + 1) (by omega)] at hci

/-- Witness for C1 at the concrete report `[1, 3, 4]`. -/
theorem claim_c1_witness :
    2 ≤ ([1, 3, 4] : List Nat).length ∧
      (isSafe [1, 3, 4] 0 = true ↔
        ((List.Chain' (· < ·) ([1, 3, 4] : List Nat) ∨
            List.Chain' (· > ·) ([1, 3, 4] : List Nat)) ∧
          ∀ i, i + 1 < ([1, 3, 4] : List Nat).length →
            1 ≤ absDiff (([1, 3, 4] : List Nat).getD i 0)
                (([1, 3, 4] : List Nat).getD (i + 1) 0) ∧
            absDiff (([1, 3, 4] : List Nat).getD i 0)
                (([1, 3, 4] : List Nat).getD (i + 1) 0) ≤ 3)) :=
  ⟨by decide, claim_c1_strict_rule [1, 3, 4] (by decide)⟩

/-- C2.  For a non-empty report and a tolerance `t` with `0 < t < len`,
`is_safe` returns true iff at least one order-preserving selection of
exactly `len - t` elements satisfies the strict tolerance-0 rule. -/
theorem claim_c2_tolerant_iff (values : List Nat) (t : Nat) (hne : values ≠ [])
    (ht : 0 < t) (hlt : t < values.length) :
    isSafe values t = true ↔
      ∃ s, s.Sublist values ∧ s.length = values.length - t ∧ isSafe s 0 = true := by
  have hlen : 0 < values.length := by omega
  rw [isSafe_pos_iff values t hne (by omega)]
  constructor
  · rintro ⟨s, a, b, c⟩
    exact ⟨s, a, b, by rwa [isSafe_zero]⟩
  · rintro ⟨s, a, b, c⟩
    exact ⟨s, a, b, by rwa [isSafe_zero] at c⟩

/-- Witness for C2 at the concrete report `[1, 3, 2]` with tolerance 1. -/
theorem claim_c2_witness :
    isSafe [1, 3, 2] 1 = true ↔
      ∃ s, s.Sublist ([1, 3, 2] : List Nat) ∧
        s.length = ([1, 3, 2] : List Nat).length - 1 ∧ isSafe s 0 = true :=
  claim_c2_tolerant_iff [1, 3, 2] 1 (by decide) (by decide) (by decide)

/-- C3 counterexample.  The claim says `is_safe` returns true for any
non-empty report once the tolerance reaches the report's length, but on the
report `[1]` with tolerance 1 the code returns false: the one enumerated
selection is the empty one, and the recursive `is_safe(0)` call classifies
it unsafe through the top-level emptiness guard. -/
theorem claim_c3_counterexample : isSafe [1] 1 = false := by decide

/-- C3 as amended.  For a non-empty report and a tolerance at or above its
length, the required subsequence length clamps to 0 and the one enumerated
selection is the empty one, but that empty selection tests as *unsafe*
(the emptiness guard of `is_safe` precedes the tolerance-0 rule), so
`is_safe` returns false. -/
theorem claim_c3_amended (values : List Nat) (t : Nat) (hne : values ≠ [])
    (ht : values.length ≤ t) :
    values.length - t = 0 ∧
      getSubsequences values (values.length - t) = [[]] ∧
      isSafe [] 0 = false ∧
      isSafe values t = false := by
  have hpos : 0 < values.length := List.length_pos.mpr hne
  have h0 : values.length - t = 0 := by omega
  refine ⟨h0, by rw [h0, getSubsequences_zero], by decide, ?_⟩
  rw [isSafe_pos values t hne (by omega), h0, getSubsequences_zero]
  decide

/-- Witness for C3 (amended) at the concrete report `[1]` with tolerance 1. -/
theorem claim_c3_witness :
    ([1] : List Nat).length - 1 = 0 ∧
      getSubsequences [1] (([1] : List Nat).length - 1) = [[]] ∧
      isSafe [] 0 = false ∧
      isSafe [1] 1 = false :=
  claim_c3_amended [1] 1 (by decide) (by decide)

/-- C4 counterexample.  The claim says every sequence of length 0 or 1 is
safe at tolerance 0, but on the empty sequence the code returns false: the
emptiness guard of `is_safe` fires before the tolerance-0 rule. -/
theorem claim_c4_counterexample : isSafe ([] : List Nat) 0 = false := by decide

/-- C4 as amended.  Every sequence of length 1 is safe at tolerance 0
(vacuously: there is no consecutive pair to violate the rule), while the
empty sequence is classified *unsafe* at tolerance 0 by the top-level
emptiness guard. -/
theorem claim_c4_amended (values : List Nat) (h : values.length = 1) :
    isSafe values 0 = true ∧ isSafe ([] : List Nat) 0 = false := by
  rw [isSafe_zero]
  exact ⟨isSafeZero_singleton values h, by decide⟩

/-- Witness for C4 (amended) at the concrete report `[5]`. -/
theorem claim_c4_witness :
    isSafe [5] 0 = true ∧ isSafe ([] : List Nat) 0 = false :=
  claim_c4_amended [5] (by decide)

/-- C5.  For every tolerance, `is_safe` on an empty report returns false:
the emptiness of the original report is checked first, before any removal
is considered. -/
theorem claim_c5_empty_report (tolerance : Nat) :
    isSafe ([] : List Nat) tolerance = false := by
  simp [isSafe]

/-- Witness for C5 at the concrete tolerance 7. -/
theorem claim_c5_witness : isSafe ([] : List Nat) 7 = false :=
  claim_c5_empty_report 7

theorem foldl_safe_count (t : Nat) (l : List (List Nat)) :
    ∀ acc : Nat,
      l.foldl (fun safe_count report =>
          if isSafe report t then safe_count + 1 else safe_count) acc
        = acc + l.countP (fun r => isSafe r t) := by
  induction l with
  | nil =>
    intro acc
    simp
  | cons r rest ih =>
    intro acc
    rw [List.foldl_cons, List.countP_cons, ih]
    by_cases h : isSafe r t = true
    · simp [h]
      omega
    · simp [h]

/-- C6.  `safe_reports` returns 0 on an empty collection and otherwise the
number of reports that are safe at the given tolerance (a pure count), and
it reproduces the two reference values. -/
theorem claim_c6_count_safe (reports : List (List Nat)) (t : Nat) :
    safeReports reports t = reports.countP (fun r => isSafe r t) ∧
      safeReports [] t = 0 ∧
      safeReports [[1, 3], [1, 2]] 0 = 2 ∧
      safeReports ([] : List (List Nat)) 0 = 0 := by
  refine ⟨?_, by simp [safeReports], by decide, by decide⟩
  rw [safeReports]
  by_cases h : reports = []
  · subst h
    simp
  · rw [if_neg h, foldl_safe_count]
    simp

/-- Witness for C6 at a concrete collection and tolerance. -/
theorem claim_c6_witness :
    safeReports [[1, 2]] 0 = ([[1, 2]] : List (List Nat)).countP (fun r => isSafe r 0) ∧
      safeReports [] 0 = 0 ∧
      safeReports [[1, 3], [1, 2]] 0 = 2 ∧
      safeReports ([] : List (List Nat)) 0 = 0 :=
  claim_c6_count_safe [[1, 2]] 0

theorem filterMap_eq_keepParsedTokens (toks : List (List Char)) :
    toks.filterMap parseU32 = keepParsedTokens toks := by
  induction toks with
  | nil => rfl
  | cons tok rest ih =>
    cases h : parseU32 tok with
    | none => simp [List.filterMap_cons, keepParsedTokens, h, ih]
    | some v => simp [List.filterMap_cons, keepParsedTokens, h, ih]

/-- C7.  `add_report` splits the line on whitespace and appends a report
holding exactly the tokens that parse as non-negative integers, in their
original order (the spec-side `keepParsedTokens` walks the tokens in order
and silently drops failures); it is a total function, and a line with no
valid token yields an empty report. -/
theorem claim_c7_parse_contract (reports : List (List Nat)) (line : String) :
    addReport reports line = reports ++ [keepParsedTokens (wsTokens line)] ∧
      ((∀ tok ∈ wsTokens line, parseU32 tok = none) →
        addReport reports line = reports ++ [[]]) := by
  constructor
  · rw [addReport, filterMap_eq_keepParsedTokens]
  · intro h
    rw [addReport, List.filterMap_eq_nil_iff.mpr h]

/-- Witness for C7: one line with a malformed token, one line with no valid
token at all. -/
theorem claim_c7_witness :
    (addReport [] "1 x 3" = [] ++ [keepParsedTokens (wsTokens "1 x 3")] ∧
        ((∀ tok ∈ wsTokens "1 x 3", parseU32 tok = none) →
          addReport [] "1 x 3" = [] ++ [[]])) ∧
      (∀ tok ∈ wsTokens "ab cd", parseU32 tok = none) ∧
      addReport [] "ab cd" = [] ++ [[]] :=
  ⟨claim_c7_parse_contract [] "1 x 3", by decide,
    (claim_c7_parse_contract [] "ab cd").2 (by decide)⟩

/-- C8.  The evaluator reproduces the literal reference scenarios, and on
the six-line reference input (fed through the parser) the safe count is 2
at tolerance 0 and 4 at tolerance 1. -/
theorem claim_c8_reference_scenarios :
    isSafe [1, 3, 1] 0 = false ∧
      isSafe [1, 3, 2] 1 = true ∧
      isSafe [9, 7, 6, 2, 1] 1 = false ∧
      isSafe [1, 7, 6, 3, 1] 1 = true ∧
      isSafe [9, 7, 6, 5, 1] 1 = true ∧
      safeReports examplePuzzle 0 = 2 ∧
      safeReports examplePuzzle 1 = 4 := by
  decide

/-- C9.  Safety is monotone in the tolerance below the report length: a
report safe at tolerance `t` stays safe at any tolerance between `t` and
the report length (exclusive). -/
theorem claim_c9_tolerance_monotone (values : List Nat) (t t' : Nat)
    (hne : values ≠ []) (htt : t ≤ t') (ht' : t' < values.length) :
    isSafe values t = true → isSafe values t' = true := by
  intro h
  by_cases heq : t = t'
  · subst heq
    exact h
  have hlen : 0 < values.length := List.length_pos.mpr hne
  have ht'0 : t' ≠ 0 := by omega
  rw [isSafe_pos_iff values t' hne ht'0]
  by_cases ht0 : t = 0
  · subst ht0
    rw [isSafe_zero] at h
    refine ⟨values.take (values.length - t'), List.take_sublist _ _, ?_, ?_⟩
    · simp only [List.length_take]
      omega
    · exact isSafeZero_take values (values.length - t') (by omega) h
  · rw [isSafe_pos_iff values t hne ht0] at h
    obtain ⟨s, hsub, hslen, hsafe⟩ := h
    refine ⟨s.take (values.length - t'), (List.take_sublist _ _).trans hsub, ?_, ?_⟩
    · simp only [List.length_take]
      omega
    · exact isSafeZero_take s (values.length - t') (by omega) hsafe

/-- Witness for C9: `[1, 2, 3, 4, 9]` is safe at tolerance 1, hence also at
tolerance 2. -/
theorem claim_c9_witness : isSafe [1, 2, 3, 4, 9] 2 = true :=
  claim_c9_tolerance_monotone [1, 2, 3, 4, 9] 1 2 (by decide) (by decide) (by decide)
    (by decide)

theorem isSafeAtIndexChecked_eq (values : List Nat) (i : Nat) (hne : values ≠ [])
    (hi : i < values.length) :
    isSafeAtIndexChecked values i = some (isSafeAtIndex values i) := by
  have hlen : ¬ values.length = 0 := by simpa [List.length_eq_zero] using hne
  rw [isSafeAtIndexChecked, if_neg hlen]
  by_cases hlast : i = values.length - 1
  · rw [if_pos hlast, isSafeAtIndex, if_pos hlast]
  · rw [if_neg hlast, isSafeAtIndex, if_neg hlast]
    have h2 : i + 1 < values.length := by omega
    rw [List.getElem?_eq_getElem hi, List.getElem?_eq_getElem h2]
    simp only [List.getD_eq_getElem?_getD, List.getElem?_eq_getElem hi,
      List.getElem?_eq_getElem h2, Option.getD_some]

theorem isAscendingChecked_eq (values : List Nat) :
    isAscendingChecked values = some (isAscending values) := by
  by_cases h2 : 2 ≤ values.length
  · have h0 : 0 < values.length := by omega
    have h1 : 1 < values.length := by omega
    rw [isAscendingChecked, if_pos h2, List.getElem?_eq_getElem h0,
      List.getElem?_eq_getElem h1, isAscending, decide_eq_true h2]
    simp only [Bool.true_and, List.getD_eq_getElem?_getD, List.getElem?_eq_getElem h0,
      List.getElem?_eq_getElem h1, Option.getD_some]
  · have hdec : decide (2 ≤ values.length) = false := by
      simpa using h2
    rw [isAscendingChecked, if_neg h2, isAscending, hdec, Bool.false_and]

theorem isWrightOrderChecked_eq (values : List Nat) (i : Nat) (hne : values ≠ [])
    (hi : i < values.length) :
    isWrightOrderChecked values i = some (isWrightOrder values i) := by
  have hlen : ¬ values.length = 0 := by simpa [List.length_eq_zero] using hne
  rw [isWrightOrderChecked, if_neg hlen]
  by_cases hlast : i = values.length - 1
  · rw [if_pos hlast, isWrightOrder, if_pos hlast]
  · rw [if_neg hlast, isWrightOrder, if_neg hlast]
    have h2 : i + 1 < values.length := by omega
    rw [List.getElem?_eq_getElem hi, List.getElem?_eq_getElem h2, isAscendingChecked_eq]
    cases hasc : isAscending values with
    | false =>
        simp only [hasc, if_false, Bool.false_eq_true, List.getD_eq_getElem?_getD,
          List.getElem?_eq_getElem hi, List.getElem?_eq_getElem h2, Option.getD_some]
    | true =>
        simp only [hasc, if_true, List.getD_eq_getElem?_getD,
          List.getElem?_eq_getElem hi, List.getElem?_eq_getElem h2, Option.getD_some]

theorem optAll_eq {α : Type} (f : α → Option Bool) (g : α → Bool) (l : List α)
    (h : ∀ x ∈ l, f x = some (g x)) : optAll f l = some (l.all g) := by
  induction l with
  | nil => rfl
  | cons x rest ih =>
    simp only [optAll, h x (List.mem_cons_self x rest),
      ih (fun y hy => h y (List.mem_cons_of_mem x hy)), List.all_cons]

theorem optAny_eq {α : Type} (f : α → Option Bool) (g : α → Bool) (l : List α)
    (h : ∀ x ∈ l, f x = some (g x)) : optAny f l = some (l.any g) := by
  induction l with
  | nil => rfl
  | cons x rest ih =>
    simp only [optAny, h x (List.mem_cons_self x rest),
      ih (fun y hy => h y (List.mem_cons_of_mem x hy)), List.any_cons]

theorem isSafeZeroChecked_eq (values : List Nat) :
    isSafeZeroChecked values = some (isSafeZero values) := by
  by_cases hne : values = []
  · subst hne
    rfl
  · rw [isSafeZeroChecked, if_neg hne, isSafeZero, if_neg hne]
    apply optAll_eq
    intro i hi
    rw [List.mem_range] at hi
    rw [isSafeAtIndexChecked_eq values i hne hi, isWrightOrderChecked_eq values i hne hi]

/-- C10.  The evaluation of `is_safe` is total and never reaches an
out-of-bounds index or an underflowing subtraction: the checked semantics,
in which every Rust indexing operation and the `len() - 1` subtraction is
guarded, returns `some` of the unchecked result on every input. -/
theorem claim_c10_total_eval (values : List Nat) (tolerance : Nat) :
    isSafeChecked values tolerance = some (isSafe values tolerance) := by
  by_cases hne : values = []
  · subst hne
    simp [isSafeChecked, isSafe]
  · by_cases ht : tolerance = 0
    · subst ht
      rw [isSafeChecked, if_neg hne, if_pos rfl, isSafe, if_neg hne, if_pos rfl]
      apply optAll_eq
      intro i hi
      rw [List.mem_range] at hi
      rw [isSafeAtIndexChecked_eq values i hne hi, isWrightOrderChecked_eq values i hne hi]
    · rw [isSafe_pos values tolerance hne ht, isSafeChecked, if_neg hne, if_neg ht]
      exact optAny_eq _ _ _ (fun s _ => isSafeZeroChecked_eq s)

/-- Witness for C10 at a concrete report and tolerance. -/
theorem claim_c10_witness :
    isSafeChecked [1, 7, 6, 3, 1] 1 = some (isSafe [1, 7, 6, 3, 1] 1) :=
  claim_c10_total_eval [1, 7, 6, 3, 1] 1

example : addReport [] "1\x0B2" = [[1, 2]] := by decide
example : addReport [] "1\u00A02" = [[1, 2]] := by decide
example : addReport [] "1\u20082\u30003" = [[1, 2, 3]] := by decide
example : isSafe [1, 3, 1] 0 = false := by decide
example : isSafe [1, 2] 0 = true := by decide
example : isSafe [1, 5] 0 = false := by decide
example : isSafe [1, 1] 0 = false := by decide
example : isSafe [1, 3, 2] 1 = true := by decide
example : isSafe [9, 7, 6, 2, 1] 1 = false := by decide
example : isSafe [1, 7, 6, 3, 1] 1 = true := by decide
example : isSafe [9, 7, 6, 5, 1] 1 = true := by decide
example : isSafe ([] : List Nat) 0 = false := by decide
example : isSafe [1] 1 = false := by decide
example : isSafe [1, 2] 5 = false := by decide
example : safeReports [[1, 3], [1, 2]] 0 = 2 := by decide

end Day02
